import Mathlib

/-!
Verification of the polygon-sketching app (`src/baseline/main.py`).

The program keeps a list of finished polygons, a list of in-progress points,
the mouse position, and two stacks of snapshots for undo/redo.  Python list
`append`/`pop` act on the end of the list; here a stack is a Lean `List`
whose head is the top, an order-isomorphic embedding of the same push/pop
discipline.  Python's defensive list copies (`p[:]`) are the identity on
immutable Lean lists.
-/

/-- Coordinates of a click or mouse move (`event.x`, `event.y`). -/
abbrev Point := Int × Int

/-- A finished or in-progress shape: an ordered list of points. -/
abbrev Polygon := List Point

/-- The dictionary built by `save_state` / `undo` / `redo`: a deep copy of
`(polygons, current_poly)`; the mouse position is not part of it. -/
structure Snapshot where
  polygons : List Polygon
  current_poly : List Point
deriving DecidableEq

/-- The mutable fields of `DrawingApp`: `self.polygons`, `self.current_poly`,
`self.mouse_pos`, `self.undo_stack`, `self.redo_stack`. -/
structure AppState where
  polygons : List Polygon
  current_poly : List Point
  mouse_pos : Point
  undo_stack : List Snapshot
  redo_stack : List Snapshot
deriving DecidableEq

/-- The state built in `DrawingApp.__init__`: everything empty, mouse at
`(0, 0)` (the initial `save_state` call on line 32 is commented out). -/
def init_state : AppState :=
  { polygons := [], current_poly := [], mouse_pos := (0, 0),
    undo_stack := [], redo_stack := [] }

/-- The snapshot of the live `(polygons, current_poly)` that `save_state`,
`undo` and `redo` each build by cloning the lists. -/
def snapshot_of (s : AppState) : Snapshot :=
  { polygons := s.polygons, current_poly := s.current_poly }

/-- `save_state`: push a snapshot of the current state onto `undo_stack` and
clear `redo_stack` ("New action clears redo history"). -/
def save_state (s : AppState) : AppState :=
  { s with undo_stack := snapshot_of s :: s.undo_stack, redo_stack := [] }

/-- `restore_state`: overwrite `polygons` and `current_poly` with the
snapshot's copies; stacks and mouse position are untouched. -/
def restore_state (s : AppState) (state : Snapshot) : AppState :=
  { s with polygons := state.polygons, current_poly := state.current_poly }

/-- `undo`: if `undo_stack` is non-empty, push the current live state onto
`redo_stack`, pop the last saved state from `undo_stack` and restore it;
otherwise do nothing. -/
def undo (s : AppState) : AppState :=
  match s.undo_stack with
  | [] => s
  | previous_state :: rest =>
      restore_state
        { s with redo_stack := snapshot_of s :: s.redo_stack,
                 undo_stack := rest }
        previous_state

/-- `redo`: if `redo_stack` is non-empty, push the current live state onto
`undo_stack`, pop the next state from `redo_stack` and restore it;
otherwise do nothing. -/
def redo (s : AppState) : AppState :=
  match s.redo_stack with
  | [] => s
  | next_state :: rest =>
      restore_state
        { s with undo_stack := snapshot_of s :: s.undo_stack,
                 redo_stack := rest }
        next_state

/-- `on_click`: `save_state`, then append the click position to
`current_poly`. -/
def on_click (s : AppState) (p : Point) : AppState :=
  let s' := save_state s
  { s' with current_poly := s'.current_poly ++ [p] }

/-- `on_move`: record the mouse position; nothing else changes. -/
def on_move (s : AppState) (p : Point) : AppState :=
  { s with mouse_pos := p }

/-- `on_finish`: if `current_poly` has more than 2 points, `save_state`,
append `current_poly` to `polygons` and reset `current_poly` to empty;
otherwise do nothing at all. -/
def on_finish (s : AppState) : AppState :=
  if s.current_poly.length > 2 then
    let s' := save_state s
    { s' with polygons := s'.polygons ++ [s'.current_poly],
              current_poly := [] }
  else s

/-- `clearall`: `save_state`, then reset `polygons` and `current_poly` to
empty. -/
def clearall (s : AppState) : AppState :=
  let s' := save_state s
  { s' with polygons := [], current_poly := [] }

/-- One user-driven event of the app: left click at a point, mouse move to a
point, double click, the Clear-all button, the Undo button, or the Redo
button. -/
inductive Evt where
  | click (p : Point)
  | move (p : Point)
  | finish
  | clear
  | undoBtn
  | redoBtn
deriving DecidableEq

/-- Dispatch one event to its handler. -/
def step (s : AppState) : Evt → AppState
  | .click p => on_click s p
  | .move p => on_move s p
  | .finish => on_finish s
  | .clear => clearall s
  | .undoBtn => undo s
  | .redoBtn => redo s

/-- Run a sequence of events from a state. -/
def run (s : AppState) (acts : List Evt) : AppState :=
  acts.foldl step s

/-- A snapshot is well-formed when each stored polygon has at least 3
points. -/
def snapOK (sn : Snapshot) : Prop :=
  ∀ poly ∈ sn.polygons, 3 ≤ poly.length

/-- A state is well-formed when every finished polygon, live or inside any
stacked snapshot, has at least 3 points. -/
def stateOK (s : AppState) : Prop :=
  (∀ poly ∈ s.polygons, 3 ≤ poly.length) ∧
  (∀ sn ∈ s.undo_stack, snapOK sn) ∧
  (∀ sn ∈ s.redo_stack, snapOK sn)

/-- A concrete state with three pending points, used to instantiate the
hypotheses of several claim theorems. -/
def demo_state : AppState :=
  { polygons := [], current_poly := [(10, 10), (20, 10), (20, 20)],
    mouse_pos := (0, 0),
    undo_stack := [{ polygons := [], current_poly := [(10, 10), (20, 10)] }],
    redo_stack := [] }

/-- C3: with 3 or more pending points, `on_finish` pushes a snapshot of the
pre-mutation state onto the undo stack, appends the prior pending list to the
end of `polygons` (earlier shapes unchanged), and empties `current_poly`. -/
theorem finish_appends_pending (s : AppState)
    (h : 2 < s.current_poly.length) :
    (on_finish s).polygons = s.polygons ++ [s.current_poly] ∧
    (on_finish s).current_poly = [] ∧
    (on_finish s).undo_stack = snapshot_of s :: s.undo_stack := by
  simp [on_finish, save_state, h]

/-- Witness for `finish_appends_pending` at a concrete 3-point state. -/
theorem finish_appends_pending_witness :
    (on_finish demo_state).polygons
      = [[((10 : Int), (10 : Int)), (20, 10), (20, 20)]] ∧
    (on_finish demo_state).current_poly = [] ∧
    (on_finish demo_state).undo_stack
      = snapshot_of demo_state :: demo_state.undo_stack := by
  have h := finish_appends_pending demo_state (by decide)
  simpa [demo_state] using h

/-- C4: with at most 2 pending points, `on_finish` changes nothing: the whole
state, both stacks included, is returned untouched. -/
theorem finish_noop_below_three (s : AppState)
    (h : s.current_poly.length ≤ 2) :
    on_finish s = s := by
  simp [on_finish, Nat.not_lt.mpr h]

/-- Witness for `finish_noop_below_three` at a concrete 2-point state. -/
theorem finish_noop_below_three_witness :
    on_finish { polygons := [], current_poly := [((0 : Int), (0 : Int)), (1, 1)],
                mouse_pos := (5, 5), undo_stack := [], redo_stack := [] }
      = { polygons := [], current_poly := [((0 : Int), (0 : Int)), (1, 1)],
          mouse_pos := (5, 5), undo_stack := [], redo_stack := [] } :=
  finish_noop_below_three _ (by decide)

/-- C6: `undo` with an empty undo stack, and `redo` with an empty redo stack,
leave the entire state unchanged. -/
theorem undo_redo_noop_on_empty (s : AppState) :
    (s.undo_stack = [] → undo s = s) ∧ (s.redo_stack = [] → redo s = s) := by
  constructor
  · intro h
    simp [undo, h]
  · intro h
    simp [redo, h]

/-- Witness for `undo_redo_noop_on_empty` at the initial state, whose stacks
are both empty. -/
theorem undo_redo_noop_on_empty_witness :
    undo init_state = init_state ∧ redo init_state = init_state :=
  ⟨(undo_redo_noop_on_empty init_state).1 rfl,
   (undo_redo_noop_on_empty init_state).2 rfl⟩

/-- C7: `on_click` always succeeds: it pushes a snapshot of the pre-mutation
`(polygons, current_poly)` onto the undo stack, clears the redo stack, and
appends the point to `current_poly`, leaving `polygons` unchanged. -/
theorem click_appends_point (s : AppState) (p : Point) :
    (on_click s p).polygons = s.polygons ∧
    (on_click s p).current_poly = s.current_poly ++ [p] ∧
    (on_click s p).undo_stack = snapshot_of s :: s.undo_stack ∧
    (on_click s p).redo_stack = [] := by
  simp [on_click, save_state]

/-- C9: snapshots record only `(polygons, current_poly)` and never the mouse
position; `undo` and `redo` leave the mouse position unchanged; and a mouse
move changes only the mouse position, nothing else. -/
theorem cursor_outside_history (s : AppState) (p : Point) :
    (save_state s).undo_stack
      = { polygons := s.polygons, current_poly := s.current_poly }
          :: s.undo_stack ∧
    (undo s).mouse_pos = s.mouse_pos ∧
    (redo s).mouse_pos = s.mouse_pos ∧
    on_move s p = { s with mouse_pos := p } := by
  refine ⟨rfl, ?_, ?_, rfl⟩
  · unfold undo
    cases s.undo_stack <;> simp [restore_state]
  · unfold redo
    cases s.redo_stack <;> simp [restore_state]

/-- C1: after each state-mutating action — a click at any point or a
clear-all from any state, and a finish from a state with more than 2 pending
points — `undo` restores `polygons` and `current_poly` to exactly their
pre-action values. -/
theorem undo_reverts_action (s : AppState) (p : Point) :
    ((undo (on_click s p)).polygons = s.polygons ∧
     (undo (on_click s p)).current_poly = s.current_poly) ∧
    (2 < s.current_poly.length →
     (undo (on_finish s)).polygons = s.polygons ∧
     (undo (on_finish s)).current_poly = s.current_poly) ∧
    ((undo (clearall s)).polygons = s.polygons ∧
     (undo (clearall s)).current_poly = s.current_poly) := by
  refine ⟨⟨?_, ?_⟩, fun h => ⟨?_, ?_⟩, ⟨?_, ?_⟩⟩ <;>
    simp [on_click, on_finish, clearall, save_state, undo, restore_state,
      snapshot_of, *]

/-- Witness for `undo_reverts_action` at a concrete 3-point state, where the
hypothesis of the finish conjunct holds. -/
theorem undo_reverts_action_witness :
    (undo (on_click demo_state (30, 30))).current_poly
        = [((10 : Int), (10 : Int)), (20, 10), (20, 20)] ∧
    (undo (on_finish demo_state)).polygons = [] ∧
    (undo (clearall demo_state)).current_poly
        = [((10 : Int), (10 : Int)), (20, 10), (20, 20)] := by
  have h := undo_reverts_action demo_state (30, 30)
  exact ⟨h.1.2, (h.2.1 (by decide)).1, h.2.2.2⟩

/-- C2: when the undo stack is non-empty (so `undo` really restores a
snapshot), `redo` right after `undo` restores `polygons` and `current_poly`
to exactly their pre-undo values. -/
theorem redo_reverts_undo (s : AppState) (h : s.undo_stack ≠ []) :
    (redo (undo s)).polygons = s.polygons ∧
    (redo (undo s)).current_poly = s.current_poly := by
  match hu : s.undo_stack with
  | [] => exact absurd hu h
  | previous_state :: rest =>
    simp [undo, hu, restore_state, snapshot_of, redo]

/-- Witness for `redo_reverts_undo` at a concrete state with a non-empty
undo stack. -/
theorem redo_reverts_undo_witness :
    (redo (undo demo_state)).polygons = [] ∧
    (redo (undo demo_state)).current_poly
        = [((10 : Int), (10 : Int)), (20, 10), (20, 20)] := by
  have h := redo_reverts_undo demo_state (by simp [demo_state])
  simpa [demo_state] using h

/-- C5: every state-mutating action leaves the redo stack empty: a click at
any point and a clear-all from any state do so unconditionally, and a finish
does so whenever it mutates, i.e. with more than 2 pending points. -/
theorem mutators_clear_redo (s : AppState) (p : Point) :
    (on_click s p).redo_stack = [] ∧
    (2 < s.current_poly.length → (on_finish s).redo_stack = []) ∧
    (clearall s).redo_stack = [] := by
  refine ⟨?_, fun h => ?_, ?_⟩ <;>
    simp [on_click, on_finish, clearall, save_state, *]

/-- Witness for `mutators_clear_redo` at a concrete 3-point state, where the
hypothesis of the finish conjunct holds. -/
theorem mutators_clear_redo_witness :
    (on_click demo_state (0, 0)).redo_stack = [] ∧
    (on_finish demo_state).redo_stack = [] ∧
    (clearall demo_state).redo_stack = [] :=
  ⟨(mutators_clear_redo demo_state (0, 0)).1,
   (mutators_clear_redo demo_state (0, 0)).2.1 (by decide),
   (mutators_clear_redo demo_state (0, 0)).2.2⟩

/-- C10: `undo` and `redo` conserve the total number of stored snapshots;
when not no-ops each moves exactly one snapshot between the stacks, and
`undo` pushes onto the redo stack (never clearing it). -/
theorem undo_redo_conserve_snapshots (s : AppState) :
    ((undo s).undo_stack.length + (undo s).redo_stack.length
      = s.undo_stack.length + s.redo_stack.length) ∧
    ((redo s).undo_stack.length + (redo s).redo_stack.length
      = s.undo_stack.length + s.redo_stack.length) ∧
    (s.undo_stack ≠ [] →
      (undo s).undo_stack.length + 1 = s.undo_stack.length ∧
      (undo s).redo_stack = snapshot_of s :: s.redo_stack) ∧
    (s.redo_stack ≠ [] →
      (redo s).redo_stack.length + 1 = s.redo_stack.length ∧
      (redo s).undo_stack = snapshot_of s :: s.undo_stack) := by
  refine ⟨?_, ?_, ?_, ?_⟩
  · rcases hu : s.undo_stack with _ | ⟨previous_state, rest⟩
    · simp [undo, hu]
    · simp [undo, hu, restore_state]
      omega
  · rcases hr : s.redo_stack with _ | ⟨next_state, rest⟩
    · simp [redo, hr]
    · simp [redo, hr, restore_state]
      omega
  · intro h
    unfold undo
    match hu : s.undo_stack with
    | [] => exact absurd hu h
    | previous_state :: rest => simp [restore_state]
  · intro h
    unfold redo
    match hr : s.redo_stack with
    | [] => exact absurd hr h
    | next_state :: rest => simp [restore_state]

/-- Witness for `undo_redo_conserve_snapshots` at a concrete state with one
stored snapshot. -/
theorem undo_redo_conserve_snapshots_witness :
    ((undo demo_state).undo_stack.length
      + (undo demo_state).redo_stack.length = 1) ∧
    (undo demo_state).redo_stack = [snapshot_of demo_state] := by
  have h := undo_redo_conserve_snapshots demo_state
  have h3 := h.2.2.1 (by simp [demo_state])
  exact ⟨by simpa [demo_state] using h.1, by simpa [demo_state] using h3.2⟩

/-- The snapshot taken of a well-formed state is well-formed. -/
lemma snapOK_snapshot_of (s : AppState)
    (hp : ∀ poly ∈ s.polygons, 3 ≤ poly.length) :
    snapOK (snapshot_of s) := by
  intro poly hm
  exact hp poly hm

/-- One event preserves well-formedness of the state. -/
lemma stateOK_step (s : AppState) (a : Evt) (h : stateOK s) :
    stateOK (step s a) := by
  obtain ⟨hp, hu, hr⟩ := h
  cases a with
  | click p =>
    refine ⟨?_, ?_, ?_⟩
    · simpa [step, on_click, save_state] using hp
    · intro sn hm
      simp only [step, on_click, save_state, List.mem_cons] at hm
      rcases hm with rfl | hm
      · exact snapOK_snapshot_of s hp
      · exact hu sn hm
    · simp [step, on_click, save_state]
  | move p =>
    exact ⟨hp, hu, hr⟩
  | finish =>
    by_cases hlen : s.current_poly.length > 2
    · refine ⟨?_, ?_, ?_⟩
      · intro poly hm
        simp only [step, on_finish, hlen, if_pos, save_state,
          List.mem_append, List.mem_singleton] at hm
        rcases hm with hm | rfl
        · exact hp poly hm
        · omega
      · intro sn hm
        simp only [step, on_finish, hlen, if_pos, save_state,
          List.mem_cons] at hm
        rcases hm with rfl | hm
        · exact snapOK_snapshot_of s hp
        · exact hu sn hm
      · simp [step, on_finish, hlen, save_state]
    · have : step s .finish = s := by
        simp [step, on_finish, hlen]
      rw [this]
      exact ⟨hp, hu, hr⟩
  | clear =>
    refine ⟨?_, ?_, ?_⟩
    · simp [step, clearall, save_state]
    · intro sn hm
      simp only [step, clearall, save_state, List.mem_cons] at hm
      rcases hm with rfl | hm
      · exact snapOK_snapshot_of s hp
      · exact hu sn hm
    · simp [step, clearall, save_state]
  | undoBtn =>
    rcases hus : s.undo_stack with _ | ⟨previous_state, rest⟩
    · simpa [step, undo, hus] using ⟨hp, hu, hr⟩
    · have hhead : snapOK previous_state := hu _ (by simp [hus])
      refine ⟨?_, ?_, ?_⟩
      · simpa [step, undo, hus, restore_state] using hhead
      · intro sn hm
        simp only [step, undo, hus, restore_state] at hm
        exact hu sn (by simp [hus, hm])
      · intro sn hm
        simp only [step, undo, hus, restore_state, List.mem_cons] at hm
        rcases hm with rfl | hm
        · exact snapOK_snapshot_of s hp
        · exact hr sn hm
  | redoBtn =>
    rcases hrs : s.redo_stack with _ | ⟨next_state, rest⟩
    · simpa [step, redo, hrs] using ⟨hp, hu, hr⟩
    · have hhead : snapOK next_state := hr _ (by simp [hrs])
      refine ⟨?_, ?_, ?_⟩
      · simpa [step, redo, hrs, restore_state] using hhead
      · intro sn hm
        simp only [step, redo, hrs, restore_state, List.mem_cons] at hm
        rcases hm with rfl | hm
        · exact snapOK_snapshot_of s hp
        · exact hu sn hm
      · intro sn hm
        simp only [step, redo, hrs, restore_state] at hm
        exact hr sn (by simp [hrs, hm])

/-- Any event sequence from a well-formed state ends in a well-formed
state. -/
lemma stateOK_run (acts : List Evt) (s : AppState) (h : stateOK s) :
    stateOK (run s acts) := by
  induction acts generalizing s with
  | nil => exact h
  | cons a rest ih =>
    have : run s (a :: rest) = run (step s a) rest := rfl
    rw [this]
    exact ih _ (stateOK_step s a h)

/-- C8: from the initial empty state, after any sequence of events, every
finished polygon — in the live shape list and in every snapshot on either
stack — has at least 3 points. -/
theorem reachable_polygons_ge_three (acts : List Evt) :
    stateOK (run init_state acts) := by
  refine stateOK_run acts init_state ?_
  refine ⟨?_, ?_, ?_⟩ <;> simp [init_state]
